import Mathlib

/-!
Shallow embedding of the winsynth audio engine core:
the NoiseMaker block engine (src/unnamed/part_005, noiseMaker.h) and the
AudioManager note/oscillator logic (src/src/AudioManager.cpp).
Machine doubles are embedded as real numbers; the C cast from double to a
signed integer sample is embedded as truncation toward zero; the fixed
note-frequency table is embedded over the rationals, where every decimal
literal of the source is exact.
-/

namespace Winsynth

/-- AudioManager::WaveType (AudioManager.h). -/
inductive WaveType
  | Sine
  | Square
deriving DecidableEq

/-- C truncation toward zero: the effect of the cast (T)(double) for a signed
integer type T, on in-range arguments. -/
noncomputable def ctrunc (x : ℝ) : ℤ :=
  if 0 ≤ x then ⌊x⌋ else ⌈x⌉

/-- C fmod(x, 1.0): x minus x truncated toward zero. -/
noncomputable def cfmod1 (x : ℝ) : ℝ :=
  x - ctrunc x

/-- AudioManager::SineSoundMaker: sin(freq * TWO_PI * dTime), with
TWO_PI = 2.0 * PI (AudioManager.cpp line 127). -/
noncomputable def SineSoundMaker (freq dTime : ℝ) : ℝ :=
  Real.sin (freq * (2 * Real.pi) * dTime)

/-- AudioManager::SquareSoundMaker: phase = fmod(freq * dTime, 1.0);
return phase < 0.5 ? 1.0 : -1.0 (AudioManager.cpp line 132). -/
noncomputable def SquareSoundMaker (freq dTime : ℝ) : ℝ :=
  if cfmod1 (freq * dTime) < 0.5 then 1.0 else -1.0

/-- The oscillator selected by a waveform value. -/
noncomputable def oscOf : WaveType → ℝ → ℝ → ℝ
  | WaveType.Sine => SineSoundMaker
  | WaveType.Square => SquareSoundMaker

/-- AudioManager::MakeSineNoise: sums SineSoundMaker over the active notes,
then multiplies by 0.5 (AudioManager.cpp line 139; the registry mutex is held
for the whole loop, see the lock-trace model below). The argument is the list
of active frequencies. -/
noncomputable def MakeSineNoise (notes : List ℝ) (dTime : ℝ) : ℝ :=
  (notes.map (fun freq => SineSoundMaker freq dTime)).sum * 0.5

/-- AudioManager::MakeSquareNoise (AudioManager.cpp line 151). -/
noncomputable def MakeSquareNoise (notes : List ℝ) (dTime : ℝ) : ℝ :=
  (notes.map (fun freq => SquareSoundMaker freq dTime)).sum * 0.5

/-- AudioManager::StaticNoiseCallback: dispatches on the current wave type
(AudioManager.cpp line 110). -/
noncomputable def StaticNoiseCallback (w : WaveType) (notes : List ℝ)
    (dTime : ℝ) : ℝ :=
  match w with
  | WaveType.Sine => MakeSineNoise notes dTime
  | WaveType.Square => MakeSquareNoise notes dTime

/-- NoiseMaker::clip (noiseMaker.h line 155): fmin against dMax above zero,
fmax against -dMax below. -/
noncomputable def clip (dSample dMax : ℝ) : ℝ :=
  if 0 ≤ dSample then min dSample dMax else max dSample (-dMax)

/-- The dMaxSample of NoiseMaker::MainThread: the maximum representable value
2^(bits-1) - 1 of a signed sample type of the given bit width
(noiseMaker.h line 203, bits = 8 * sizeof(T)). -/
noncomputable def dMaxSample (bits : ℕ) : ℝ :=
  2 ^ (bits - 1) - 1

/-- The per-block sample loop of NoiseMaker::MainThread (noiseMaker.h lines
220-233): each sample is the clipped user-function output scaled by dMaxSample
and cast to the integer sample type, and the global time advances by dStep
after each sample. Returns the filled block and the new global time. -/
noncomputable def fillBlock (userF : ℝ → ℝ) (dMax dStep : ℝ) :
    ℕ → ℝ → List ℤ × ℝ
  | 0, t => ([], t)
  | n + 1, t =>
      let s := ctrunc (clip (userF t) 1 * dMax)
      let r := fillBlock userF dMax dStep n (t + dStep)
      (s :: r.1, r.2)

/-- The global clock of NoiseMaker::MainThread: m_dGlobalTime starts at 0.0
and advances by dTimeStep = 1 / m_nSampleRate once per generated sample
(noiseMaker.h lines 199-200 and 232). globalTimeAfter R k is the clock value
after k samples at sample rate R. -/
noncomputable def globalTimeAfter (nSampleRate : ℝ) : ℕ → ℝ
  | 0 => 0
  | k + 1 => globalTimeAfter nSampleRate k + 1 / nSampleRate

/-- The block-index rotation of NoiseMaker::MainThread: m_nBlockCurrent starts
at 0 (noiseMaker.h line 53) and after each submitted block is incremented and
reduced modulo m_nBlockCount (lines 236-237). blockIndexAfter N s is the index
used by the (s+1)-th filled block. -/
def blockIndexAfter (nBlockCount : ℕ) : ℕ → ℕ
  | 0 => 0
  | s + 1 => (blockIndexAfter nBlockCount s + 1) % nBlockCount

/-- Counting state of the block pool: m_nBlockFree plus the number of blocks
currently submitted to waveOut and not yet returned by WOM_DONE. -/
structure PoolState where
  nBlockFree : ℕ
  nInFlight : ℕ
deriving DecidableEq

/-- The pool-count protocol of noiseMaker.h. Initially m_nBlockFree equals
m_nBlockCount (line 52). MainThread decrements m_nBlockFree once per filled
block, after the wait loop has ensured it is nonzero (lines 209-215).
waveOutProc increments it once per WOM_DONE completion of an in-flight block
(lines 183-191). -/
inductive PoolReachable (nBlockCount : ℕ) : PoolState → Prop
  | init : PoolReachable nBlockCount ⟨nBlockCount, 0⟩
  | submit {s : PoolState} : PoolReachable nBlockCount s → 0 < s.nBlockFree →
      PoolReachable nBlockCount ⟨s.nBlockFree - 1, s.nInFlight + 1⟩
  | complete {s : PoolState} : PoolReachable nBlockCount s → 0 < s.nInFlight →
      PoolReachable nBlockCount ⟨s.nBlockFree + 1, s.nInFlight - 1⟩

/-- Shutdown-relevant engine state: the free-block count, the m_bReady flag,
whether MainThread is blocked inside m_cvBlockNotZero.wait, and how many
notify_one calls are pending for that wait. -/
structure EngineState where
  nBlockFree : ℕ
  bReady : Bool
  threadWaiting : Bool
  pendingNotify : ℕ
deriving DecidableEq

/-- NoiseMaker::Stop (noiseMaker.h lines 120-124): it sets m_bReady to false
and joins the thread. It performs no notify on m_cvBlockNotZero and does not
touch the free count. -/
def Stop (s : EngineState) : EngineState :=
  { s with bReady := false }

/-- NoiseMaker::waveOutProc on WOM_DONE (noiseMaker.h lines 183-191):
increments m_nBlockFree and issues one notify_one on m_cvBlockNotZero. -/
def waveOutProc (s : EngineState) : EngineState :=
  { s with nBlockFree := s.nBlockFree + 1, pendingNotify := s.pendingNotify + 1 }

/-- Atomic events of one MakeSineNoise / MakeSquareNoise call, in program
order: the lock_guard acquires m_notesMutex at function entry, one oscillator
evaluation happens per active note inside the guarded scope, and the mutex is
released at function exit (AudioManager.cpp lines 139-161). -/
inductive MixEvent
  | acquire
  | oscEval
  | release
deriving DecidableEq

/-- The lock trace of one MakeSineNoise / MakeSquareNoise call over k active
notes. -/
def makeNoiseLockTrace (k : ℕ) : List MixEvent :=
  MixEvent.acquire :: (List.replicate k MixEvent.oscEval ++ [MixEvent.release])

/-- The registry mutex is held when the i-th event of the trace executes:
more acquires than releases precede it. -/
def lockHeldBefore (tr : List MixEvent) (i : ℕ) : Prop :=
  (tr.take i).count MixEvent.release < (tr.take i).count MixEvent.acquire

instance (tr : List MixEvent) (i : ℕ) : Decidable (lockHeldBefore tr i) :=
  inferInstanceAs (Decidable (_ < _))

/-- The property the specification ascribes to the generation thread: every
oscillator evaluation of the per-sample mix iterates a snapshot without
holding any lock. -/
def iterationLockFree (k : ℕ) : Prop :=
  ∀ i < (makeNoiseLockTrace k).length,
    (makeNoiseLockTrace k).get? i = some MixEvent.oscEval →
      ¬ lockHeldBefore (makeNoiseLockTrace k) i

instance (k : ℕ) : Decidable (iterationLockFree k) :=
  Nat.decidableBallLT _ _

/-- The active-note registry m_activeNotes: an association list from the
WPARAM key code to the frequency in hertz, each key present at most once
(std::unordered_map\<WPARAM, double\>, AudioManager.h line 36). -/
def NoteRegistry : Type := List (ℕ × ℚ)

instance : DecidableEq NoteRegistry :=
  inferInstanceAs (DecidableEq (List (ℕ × ℚ)))

/-- m_activeNotes.find(w) != end. -/
def containsNote (m : NoteRegistry) (w : ℕ) : Bool :=
  (List.any m fun p => p.1 == w)

/-- m_activeNotes[w] = f: overwrite the entry if the key is present, append it
otherwise. -/
def insertNote (m : NoteRegistry) (w : ℕ) (f : ℚ) : NoteRegistry :=
  if containsNote m w then
    List.map (fun p => if p.1 == w then (w, f) else p) m
  else
    List.append m [(w, f)]

/-- m_activeNotes.erase(w): removes the entry with key w when present. -/
def eraseNote (m : NoteRegistry) (w : ℕ) : NoteRegistry :=
  List.filter (fun p => p.1 != w) m

/-- The key-to-frequency table of AudioManager::MapNoteFrequency
(AudioManager.cpp lines 163-210), returning none for an unmapped key code.
The virtual-key codes and the note-frequency constants are those of
AudioManager.cpp lines 11-53. -/
def MapNoteFrequency (wParam : ℕ) : Option ℚ :=
  if wParam = 0x51 then some 523.25        -- Q, C5
  else if wParam = 0x57 then some 587.33   -- W, D5
  else if wParam = 0x45 then some 659.25   -- E, E5
  else if wParam = 0x52 then some 698.46   -- R, F5
  else if wParam = 0x54 then some 783.99   -- T, G5
  else if wParam = 0x59 then some 880.00   -- Y, A5
  else if wParam = 0x55 then some 987.77   -- U, B5
  else if wParam = 0x49 then some 1046.50  -- I, C6
  else if wParam = 0x4F then some 1174.66  -- O, D6
  else if wParam = 0x50 then some 1318.51  -- P, E6
  else if wParam = 0x5A then some 261.626  -- Z, C4
  else if wParam = 0x58 then some 293.665  -- X, D4
  else if wParam = 0x43 then some 329.628  -- C, E4
  else if wParam = 0x56 then some 349.228  -- V, F4
  else if wParam = 0x42 then some 392.000  -- B, G4
  else if wParam = 0x4E then some 440.000  -- N, A4
  else if wParam = 0x4D then some 493.883  -- M, B4
  else none

/-- The 17 mapped virtual keys Q W E R T Y U I O P Z X C V B N M. -/
def mappedKeys : List ℕ :=
  [0x51, 0x57, 0x45, 0x52, 0x54, 0x59, 0x55, 0x49, 0x4F, 0x50,
   0x5A, 0x58, 0x43, 0x56, 0x42, 0x4E, 0x4D]

/-- The AudioManager state the key handlers touch: the active-note registry
and the current wave type. -/
structure AMState where
  activeNotes : NoteRegistry
  currentWaveType : WaveType
deriving DecidableEq

/-- AudioManager::HandleKeyDown (AudioManager.cpp line 89): under the registry
mutex, when the key is absent, MapNoteFrequency either inserts its mapped
frequency or returns without effect for an unknown key. -/
def HandleKeyDown (wParam : ℕ) (s : AMState) : AMState :=
  if containsNote s.activeNotes wParam then s
  else
    match MapNoteFrequency wParam with
    | none => s
    | some f => { s with activeNotes := insertNote s.activeNotes wParam f }

/-- AudioManager::HandleKeyUp (AudioManager.cpp line 98): under the registry
mutex, erase the key. -/
def HandleKeyUp (wParam : ℕ) (s : AMState) : AMState :=
  { s with activeNotes := eraseNote s.activeNotes wParam }

/-! ## Theorems -/

/-- The clock after k samples at rate R is k / R. -/
theorem globalTimeAfter_eq (R : ℝ) (k : ℕ) : globalTimeAfter R k = k / R := by
  induction k with
  | zero => simp [globalTimeAfter]
  | succ n ih =>
      rw [globalTimeAfter, ih]
      push_cast
      ring

/-- C6: the Global Clock starts at 0, advances by exactly one sample period
1 / R per generated sample, never decreases, and after M blocks of N samples
at sample rate R its value is exactly M * N / R (the embedding is over the
reals, so the floating-point tolerance is 0). -/
theorem global_clock_roundtrip (R : ℝ) (hR : 0 < R) (M N k : ℕ) :
    globalTimeAfter R 0 = 0
    ∧ globalTimeAfter R (k + 1) = globalTimeAfter R k + 1 / R
    ∧ globalTimeAfter R k ≤ globalTimeAfter R (k + 1)
    ∧ globalTimeAfter R (M * N) = (M * N : ℝ) / R := by
  refine ⟨rfl, rfl, ?_, ?_⟩
  · rw [globalTimeAfter]
    have : 0 ≤ 1 / R := by positivity
    linarith
  · rw [globalTimeAfter_eq]
    push_cast
    ring

/-- Witness for C6 at the default configuration. -/
theorem global_clock_roundtrip_witness :
    (0 : ℝ) < 44100
    ∧ (globalTimeAfter 44100 0 = 0
      ∧ globalTimeAfter 44100 (5 + 1) = globalTimeAfter 44100 5 + 1 / 44100
      ∧ globalTimeAfter 44100 5 ≤ globalTimeAfter 44100 (5 + 1)
      ∧ globalTimeAfter 44100 (2 * 512)
          = ((2 : ℕ) : ℝ) * ((512 : ℕ) : ℝ) / 44100) :=
  ⟨by norm_num, global_clock_roundtrip 44100 (by norm_num) 2 512 5⟩

/-- C4: block rotation is strict round-robin: from each filled block to the
next the current index advances by exactly one modulo the pool size, and the
index used by the (s+1)-th generated block is s mod N, so blocks are reused
in generation order. -/
theorem block_rotation_round_robin (nBlockCount s : ℕ) :
    blockIndexAfter nBlockCount (s + 1)
        = (blockIndexAfter nBlockCount s + 1) % nBlockCount
    ∧ blockIndexAfter nBlockCount s = s % nBlockCount := by
  refine ⟨rfl, ?_⟩
  induction s with
  | zero => simp [blockIndexAfter]
  | succ n ih =>
      rw [blockIndexAfter, ih, Nat.mod_add_mod]

/-- C5: in every reachable pool state, the free count plus the in-flight
count is exactly the pool size (no block leaked, none duplicated) and the
free count never exceeds the pool size; the free count starts at the pool
size, each fill-and-submit decrements it by one and each completion
increments it by one (the PoolReachable step constructors). -/
theorem pool_free_count_invariant (nBlockCount : ℕ) (s : PoolState)
    (h : PoolReachable nBlockCount s) :
    s.nBlockFree + s.nInFlight = nBlockCount ∧ s.nBlockFree ≤ nBlockCount := by
  induction h with
  | init => simp
  | submit _ hf ih =>
      obtain ⟨h1, h2⟩ := ih
      constructor <;> (dsimp only; omega)
  | complete _ hf ih =>
      obtain ⟨h1, h2⟩ := ih
      constructor <;> (dsimp only; omega)

/-- Witness for C5: the state after one submit from the default pool of 8. -/
theorem pool_free_count_invariant_witness :
    (⟨7, 1⟩ : PoolState).nBlockFree + (⟨7, 1⟩ : PoolState).nInFlight = 8
    ∧ (⟨7, 1⟩ : PoolState).nBlockFree ≤ 8 :=
  pool_free_count_invariant 8 ⟨7, 1⟩
    (PoolReachable.submit PoolReachable.init (by norm_num))

/-- C2 (code bug): NoiseMaker::Stop only clears m_bReady and joins. For every
engine state it leaves the thread-waiting flag and the pending-notify count
unchanged, so a generation thread blocked in m_cvBlockNotZero.wait with no
pending completion stays blocked: concretely, from the blocked state
(free = 0, ready, waiting, no pending notify) Stop yields the same blocked
state with only ready cleared, and no wake-up is ever issued by Stop. -/
theorem stop_leaves_wait_blocked (s : EngineState) :
    (Stop s).threadWaiting = s.threadWaiting
    ∧ (Stop s).pendingNotify = s.pendingNotify
    ∧ Stop ⟨0, true, true, 0⟩ = ⟨0, false, true, 0⟩ :=
  ⟨rfl, rfl, rfl⟩

/-- Truncation toward zero agrees with the floor on nonnegative arguments. -/
theorem ctrunc_eq_floor (x : ℝ) (hx : 0 ≤ x) : ctrunc x = ⌊x⌋ := by
  simp [ctrunc, hx]

/-- C fmod by 1 agrees with the fractional part on nonnegative arguments. -/
theorem cfmod1_eq_fract (x : ℝ) (hx : 0 ≤ x) : cfmod1 x = Int.fract x := by
  rw [cfmod1, ctrunc_eq_floor x hx, Int.fract]

/-- C7: the oscillators are pure functions of (frequency, time): on the
domain of the program (nonnegative frequency and time), the sine oscillator
returns sin(2 pi f t) and the square oscillator returns +1 when the
fractional part of f * t lies in the first half of the period and -1 in the
second half. -/
theorem oscillators_pure_deterministic (f t : ℝ) (hf : 0 ≤ f) (ht : 0 ≤ t) :
    SineSoundMaker f t = Real.sin (2 * Real.pi * f * t)
    ∧ SquareSoundMaker f t
        = (if Int.fract (f * t) < 1 / 2 then (1 : ℝ) else -1) := by
  constructor
  · rw [SineSoundMaker]
    congr 1
    ring
  · rw [SquareSoundMaker, cfmod1_eq_fract (f * t) (mul_nonneg hf ht)]
    norm_num

/-- Witness for C7 at frequency 440 and time 0. -/
theorem oscillators_pure_deterministic_witness :
    (0 : ℝ) ≤ 440 ∧ (0 : ℝ) ≤ 0
    ∧ (SineSoundMaker 440 0 = Real.sin (2 * Real.pi * 440 * 0)
      ∧ SquareSoundMaker 440 0
          = (if Int.fract ((440 : ℝ) * 0) < 1 / 2 then (1 : ℝ) else -1)) :=
  ⟨by norm_num, by norm_num,
    oscillators_pure_deterministic 440 0 (by norm_num) (by norm_num)⟩

/-- Each sine oscillator sample has magnitude at most 1. -/
theorem abs_SineSoundMaker_le_one (f t : ℝ) : |SineSoundMaker f t| ≤ 1 := by
  rw [SineSoundMaker]
  exact Real.abs_sin_le_one _

/-- Each square oscillator sample has magnitude at most 1. -/
theorem abs_SquareSoundMaker_le_one (f t : ℝ) : |SquareSoundMaker f t| ≤ 1 := by
  rw [SquareSoundMaker]
  split <;> norm_num

/-- A list of reals each of magnitude at most 1 sums to at most its length
in magnitude. -/
theorem list_abs_sum_le (l : List ℝ) (h : ∀ x ∈ l, |x| ≤ 1) :
    |l.sum| ≤ l.length := by
  induction l with
  | nil => simp
  | cons a l ih =>
      have ha : |a| ≤ 1 := h a (List.mem_cons_self a l)
      have hl : |l.sum| ≤ l.length := ih fun x hx => h x (List.mem_cons_of_mem a hx)
      calc |(a :: l).sum| = |a + l.sum| := by rw [List.sum_cons]
        _ ≤ |a| + |l.sum| := abs_add _ _
        _ ≤ 1 + l.length := add_le_add ha hl
        _ = ((a :: l).length : ℝ) := by rw [List.length_cons]; push_cast; ring

/-- On samples of magnitude at most 1, the clip stage is the identity. -/
theorem clip_eq_self (x : ℝ) (hx : |x| ≤ 1) : clip x 1 = x := by
  rw [clip]
  rcases abs_le.mp hx with ⟨hlo, hhi⟩
  split
  · exact min_eq_left hhi
  · exact max_eq_left hlo

/-- The mixed output is the oscillator sum attenuated by 0.5, so it is
bounded by half the note count. -/
theorem mix_abs_le (osc : ℝ → ℝ → ℝ) (h : ∀ f t, |osc f t| ≤ 1)
    (notes : List ℝ) (t : ℝ) :
    |(notes.map (fun f => osc f t)).sum * 0.5| ≤ 0.5 * notes.length := by
  have hb : |(notes.map (fun f => osc f t)).sum|
      ≤ ((notes.map (fun f => osc f t)).length : ℝ) := by
    refine list_abs_sum_le _ ?_
    intro x hx
    obtain ⟨f, _, rfl⟩ := List.mem_map.mp hx
    exact h f t
  rw [List.length_map] at hb
  calc |(notes.map (fun f => osc f t)).sum * 0.5|
      = |(notes.map (fun f => osc f t)).sum| * 0.5 := by
        rw [abs_mul]; norm_num
    _ ≤ (notes.length : ℝ) * 0.5 := by
        have : (0 : ℝ) ≤ 0.5 := by norm_num
        exact mul_le_mul_of_nonneg_right hb this
    _ = 0.5 * notes.length := by ring

/-- C10: for every time and every active-note list of length k, the pre-clip
callback outputs satisfy |MakeSineNoise| and |MakeSquareNoise| bounded by
0.5 * k (each oscillator term has magnitude at most 1 and the sum is
attenuated by 0.5); consequently when k is at most 2 the mixed sample has
magnitude at most 1 and the clip stage is the identity on it. -/
theorem mix_bounded_and_clip_identity (notes : List ℝ) (t : ℝ) :
    |MakeSineNoise notes t| ≤ 0.5 * notes.length
    ∧ |MakeSquareNoise notes t| ≤ 0.5 * notes.length
    ∧ (notes.length ≤ 2 →
        clip (MakeSineNoise notes t) 1 = MakeSineNoise notes t
        ∧ clip (MakeSquareNoise notes t) 1 = MakeSquareNoise notes t) := by
  have hs : |MakeSineNoise notes t| ≤ 0.5 * notes.length :=
    mix_abs_le SineSoundMaker abs_SineSoundMaker_le_one notes t
  have hq : |MakeSquareNoise notes t| ≤ 0.5 * notes.length :=
    mix_abs_le SquareSoundMaker abs_SquareSoundMaker_le_one notes t
  refine ⟨hs, hq, ?_⟩
  intro hk
  have hlen : (notes.length : ℝ) ≤ 2 := by exact_mod_cast hk
  have hone : 0.5 * (notes.length : ℝ) ≤ 1 := by linarith
  exact ⟨clip_eq_self _ (le_trans hs hone), clip_eq_self _ (le_trans hq hone)⟩

/-- Witness for C10 on the two-note list [440, 261.626] at time 0, with the
length bound of the clip-identity part discharged there. -/
theorem mix_bounded_and_clip_identity_witness :
    |MakeSineNoise [440, 261.626] 0| ≤ 0.5 * ([(440 : ℝ), 261.626]).length
    ∧ |MakeSquareNoise [440, 261.626] 0|
        ≤ 0.5 * ([(440 : ℝ), 261.626]).length
    ∧ ([(440 : ℝ), 261.626]).length ≤ 2
    ∧ clip (MakeSineNoise [440, 261.626] 0) 1 = MakeSineNoise [440, 261.626] 0
    ∧ clip (MakeSquareNoise [440, 261.626] 0) 1
        = MakeSquareNoise [440, 261.626] 0 :=
  ⟨(mix_bounded_and_clip_identity [440, 261.626] 0).1,
   (mix_bounded_and_clip_identity [440, 261.626] 0).2.1,
   by norm_num,
   ((mix_bounded_and_clip_identity [440, 261.626] 0).2.2 (by norm_num)).1,
   ((mix_bounded_and_clip_identity [440, 261.626] 0).2.2 (by norm_num)).2⟩

/-- After erasing a key, the registry does not contain it. -/
theorem containsNote_eraseNote (m : NoteRegistry) (w : ℕ) :
    containsNote (eraseNote m w) w = false := by
  rw [containsNote, eraseNote]
  simp only [List.any_eq_false, List.mem_filter]
  intro p hp
  have := hp.2
  simp only [bne_iff_ne, ne_eq] at this
  simp [this]

/-- Erasing an absent key leaves the registry unchanged. -/
theorem eraseNote_of_not_contains (m : NoteRegistry) (w : ℕ)
    (h : containsNote m w = false) : eraseNote m w = m := by
  rw [containsNote] at h
  simp only [List.any_eq_false, beq_iff_eq] at h
  rw [eraseNote]
  refine List.filter_eq_self.mpr ?_
  intro p hp
  have := h p hp
  simp [bne_iff_ne, this]

/-- C8: a key-up on an id absent from the registry is a no-op that leaves the
whole state unchanged and raises no error, and a key-down immediately
followed by a key-up for the same id leaves the registry without that id. -/
theorem note_off_noop_and_inverse (s s2 : AMState) (w w2 : ℕ)
    (habs : containsNote s.activeNotes w = false) :
    HandleKeyUp w s = s
    ∧ containsNote (HandleKeyUp w2 (HandleKeyDown w2 s2)).activeNotes w2
        = false := by
  constructor
  · rw [HandleKeyUp, eraseNote_of_not_contains s.activeNotes w habs]
  · rw [HandleKeyUp]
    exact containsNote_eraseNote (HandleKeyDown w2 s2).activeNotes w2

/-- Witness for C8: the empty registry and the Q key, 0x51. -/
theorem note_off_noop_and_inverse_witness :
    containsNote (⟨[], WaveType.Sine⟩ : AMState).activeNotes 0x51 = false
    ∧ (HandleKeyUp 0x51 (⟨[], WaveType.Sine⟩ : AMState)
          = (⟨[], WaveType.Sine⟩ : AMState)
      ∧ containsNote
          (HandleKeyUp 0x51
            (HandleKeyDown 0x51 (⟨[], WaveType.Sine⟩ : AMState))).activeNotes
          0x51 = false) :=
  ⟨rfl, note_off_noop_and_inverse ⟨[], WaveType.Sine⟩ ⟨[], WaveType.Sine⟩
    0x51 0x51 rfl⟩

/-- An unmapped key code has no entry in the frequency table. -/
theorem MapNoteFrequency_eq_none (w : ℕ) (hw : w ∉ mappedKeys) :
    MapNoteFrequency w = none := by
  simp only [mappedKeys, List.mem_cons, List.not_mem_nil, or_false,
    not_or] at hw
  obtain ⟨h1, h2, h3, h4, h5, h6, h7, h8, h9, h10, h11, h12, h13, h14, h15,
    h16, h17⟩ := hw
  simp only [MapNoteFrequency, if_neg h1, if_neg h2, if_neg h3, if_neg h4,
    if_neg h5, if_neg h6, if_neg h7, if_neg h8, if_neg h9, if_neg h10,
    if_neg h11, if_neg h12, if_neg h13, if_neg h14, if_neg h15, if_neg h16,
    if_neg h17]

/-- C9: a key-down for any key code outside the 17 mapped virtual keys leaves
the whole AudioManager state unchanged: the registry has no entry added,
removed or modified, and the waveform selection is untouched. -/
theorem unmapped_key_frame_effect (w : ℕ) (s : AMState)
    (hw : w ∉ mappedKeys) :
    HandleKeyDown w s = s
    ∧ (HandleKeyDown w s).currentWaveType = s.currentWaveType := by
  have hnone := MapNoteFrequency_eq_none w hw
  have hdown : HandleKeyDown w s = s := by
    rw [HandleKeyDown, hnone]
    split <;> rfl
  exact ⟨hdown, by rw [hdown]⟩

/-- Witness for C9: the unmapped key code 0x41 (the A key). -/
theorem unmapped_key_frame_effect_witness :
    (0x41 : ℕ) ∉ mappedKeys
    ∧ (HandleKeyDown 0x41 (⟨[(0x51, 523.25)], WaveType.Square⟩ : AMState)
          = (⟨[(0x51, 523.25)], WaveType.Square⟩ : AMState)
      ∧ (HandleKeyDown 0x41
            (⟨[(0x51, 523.25)], WaveType.Square⟩ : AMState)).currentWaveType
          = (⟨[(0x51, 523.25)], WaveType.Square⟩ : AMState).currentWaveType) :=
  ⟨by decide, unmapped_key_frame_effect 0x41 ⟨[(0x51, 523.25)], WaveType.Square⟩
    (by decide)⟩

/-- C3 counterexample: already with a single active note, the oscillator
evaluation of the per-sample mix runs while the registry mutex is held, so
the iteration is not a lock-free walk over a snapshot. -/
theorem iteration_not_lock_free : ¬ iterationLockFree 1 := by decide

/-- C3 amended: every oscillator evaluation of a MakeSineNoise or
MakeSquareNoise call happens while the registry mutex is held; there is no
snapshot copy, so a registry mutation can be blocked for the duration of a
whole k-note summation. -/
theorem iteration_under_registry_lock (k i : ℕ)
    (hi : (makeNoiseLockTrace k).get? i = some MixEvent.oscEval) :
    lockHeldBefore (makeNoiseLockTrace k) i := by
  rcases i with _ | j
  · simp [makeNoiseLockTrace] at hi
  · rw [makeNoiseLockTrace, List.get?_cons_succ] at hi
    have hj : j < k := by
      by_contra hj
      push_neg at hj
      rw [List.get?_append_right (by simpa using hj)] at hi
      simp only [List.length_replicate] at hi
      rcases Nat.eq_zero_or_pos (j - k) with h0 | h0
      · rw [h0] at hi
        simp at hi
      · rw [List.get?_eq_none.mpr
            (by simp only [List.length_cons, List.length_nil]; omega)] at hi
        exact Option.noConfusion hi
    rw [lockHeldBefore, makeNoiseLockTrace, List.take_succ_cons,
      List.take_append_of_le_length (by simpa using hj.le),
      List.take_replicate, Nat.min_eq_left hj.le]
    simp [List.count_cons, List.count_replicate]

/-- Witness for the C3 amended theorem: the single oscillator evaluation of a
one-note mix, at trace position 1, runs under the registry mutex. -/
theorem iteration_under_registry_lock_witness :
    (makeNoiseLockTrace 1).get? 1 = some MixEvent.oscEval
    ∧ lockHeldBefore (makeNoiseLockTrace 1) 1 :=
  ⟨by decide, iteration_under_registry_lock 1 1 (by decide)⟩

/-- The n-th sample of a filled block is the clipped, scaled and truncated
user-function output at the clock value t0 + n * dStep. -/
theorem fillBlock_get (userF : ℝ → ℝ) (dMax dStep : ℝ) :
    ∀ (nBlockSamples n : ℕ) (t0 : ℝ), n < nBlockSamples →
      (fillBlock userF dMax dStep nBlockSamples t0).1.get? n
        = some (ctrunc (clip (userF (t0 + n * dStep)) 1 * dMax)) := by
  intro nBlockSamples
  induction nBlockSamples with
  | zero => intro n t0 h; exact absurd h (Nat.not_lt_zero n)
  | succ m ih =>
      intro n t0 h
      rcases n with _ | k
      · simp [fillBlock]
      · have hk : k < m := by omega
        rw [fillBlock]
        simp only [List.get?_cons_succ]
        rw [ih k (t0 + dStep) hk]
        have harg : t0 + dStep + (k : ℝ) * dStep
            = t0 + ((k + 1 : ℕ) : ℝ) * dStep := by
          push_cast
          ring
        rw [harg]

/-- The clip stage maps 0 to 0. -/
theorem clip_zero : clip 0 1 = 0 := by
  rw [clip, if_pos le_rfl]
  exact min_eq_left zero_le_one

/-- Truncation toward zero maps 0 to 0. -/
theorem ctrunc_zero : ctrunc 0 = 0 := by
  rw [ctrunc, if_pos le_rfl]
  exact Int.floor_zero

/-- The registered callback equals the attenuated oscillator sum for the
selected waveform. -/
theorem StaticNoiseCallback_eq (w : WaveType) (notes : List ℝ) (t : ℝ) :
    StaticNoiseCallback w notes t
      = 0.5 * (notes.map (fun f => oscOf w f t)).sum := by
  cases w
  · rw [StaticNoiseCallback, MakeSineNoise]
    simp only [oscOf]
    ring
  · rw [StaticNoiseCallback, MakeSquareNoise]
    simp only [oscOf]
    ring

/-- C1: for a fixed waveform selection and active-note list {f1 ... fk}, the
sample written at position n of a block started at clock t0 equals
clip(0.5 * sum of oscillator(fi, t), 1) scaled by the maximum representable
value of the configured sample width and truncated to the integer sample
type, where t = t0 + n / sample rate; for k = 0 the written sample is the
zero sample. -/
theorem sample_generation_matches_mix (w : WaveType) (notes : List ℝ)
    (bits nBlockSamples n : ℕ) (nSampleRate t0 : ℝ)
    (hn : n < nBlockSamples) :
    (fillBlock (StaticNoiseCallback w notes) (dMaxSample bits)
        (1 / nSampleRate) nBlockSamples t0).1.get? n
      = some (ctrunc (clip
          (0.5 * (notes.map
            (fun f => oscOf w f (t0 + n * (1 / nSampleRate)))).sum)
          1 * dMaxSample bits))
    ∧ (notes = [] →
        (fillBlock (StaticNoiseCallback w notes) (dMaxSample bits)
            (1 / nSampleRate) nBlockSamples t0).1.get? n = some 0) := by
  have hmain := fillBlock_get (StaticNoiseCallback w notes) (dMaxSample bits)
    (1 / nSampleRate) nBlockSamples n t0 hn
  rw [StaticNoiseCallback_eq] at hmain
  refine ⟨hmain, ?_⟩
  intro hempty
  subst hempty
  rw [hmain]
  simp only [List.map_nil, List.sum_nil, mul_zero, clip_zero, zero_mul,
    ctrunc_zero]

/-- Witness for C1 at the default configuration: the first sample of the
first block for the sine waveform with no active notes. -/
theorem sample_generation_matches_mix_witness :
    0 < 512
    ∧ ((fillBlock (StaticNoiseCallback WaveType.Sine []) (dMaxSample 32)
          (1 / 44100) 512 0).1.get? 0
        = some (ctrunc (clip
            (0.5 * (([] : List ℝ).map
              (fun f => oscOf WaveType.Sine f (0 + (0 : ℕ) * (1 / 44100)))).sum)
            1 * dMaxSample 32))
      ∧ (([] : List ℝ) = [] →
          (fillBlock (StaticNoiseCallback WaveType.Sine []) (dMaxSample 32)
              (1 / 44100) 512 0).1.get? 0 = some 0)) :=
  ⟨by norm_num,
    sample_generation_matches_mix WaveType.Sine [] 32 512 0 44100 0
      (by norm_num)⟩

end Winsynth
